import Mathlib

/-!
Verification of the goroute/route HTTP multiplexer core: middleware
composition, request-context lifecycle, route registration and the default
error handler.  Definitions are shallow embeddings of the Go source
(middleware.go and the compose helper); parts of the repository whose
implementation files are absent from the source tree (the radix router
find/add, the context reset and the response primitives) are modelled from
the specification and marked as such in their doc comments.
-/

namespace Route

/-- A JSON-shaped value, standing for the Go interface value carried in
HTTPError.Message and written as a response body: either a string or an
object with string-rendered field values (the handler itself only ever
builds one-level objects whose values are strings, so flat objects cover
every value the code constructs). -/
inductive JsonVal where
  | str (s : String)
  | obj (fields : List (String × String))
deriving DecidableEq

/-- Embedding of the HTTPError struct from middleware.go: Code, Message and
an optional Internal error (kept as its rendered text, since the default
handler only reformats it and never lets it reach the response). -/
structure HTTPErrorS where
  code : Nat
  message : JsonVal
  internal : Option String
deriving DecidableEq

/-- A Go error value as seen by the dispatcher: either a structured
HTTPError or any other error, represented by its Error() text. -/
inductive GoErr where
  | http (e : HTTPErrorS)
  | basic (text : String)
deriving DecidableEq

/-- Embedding of Go http.StatusText for the codes this development uses;
unknown codes give the empty string as in the Go standard library. -/
def statusText (code : Nat) : String :=
  if code = 400 then "Bad Request"
  else if code = 404 then "Not Found"
  else if code = 405 then "Method Not Allowed"
  else if code = 500 then "Internal Server Error"
  else ""

/-- Embedding of NewHTTPError (unnamed source part): Message defaults to
the status text, an explicit message overrides it. -/
def newHTTPError (code : Nat) (message : Option JsonVal) : HTTPErrorS :=
  { code := code
    message := message.getD (.str (statusText code))
    internal := none }

/-- ErrNotFound from middleware.go: NewHTTPError(http.StatusNotFound). -/
def errNotFound : GoErr := .http (newHTTPError 404 none)

/-- ErrMethodNotAllowed from middleware.go:
NewHTTPError(http.StatusMethodNotAllowed). -/
def errMethodNotAllowed : GoErr := .http (newHTTPError 405 none)

/-- Modelled from the spec: the response state of a request (the Response
struct and its Committed flag; response.go is absent from the source tree).
A write commits the response with a status and an optional JSON body. -/
structure Resp where
  committed : Bool
  status : Nat
  body : Option JsonVal
deriving DecidableEq

/-- Modelled from the spec: a freshly reset, uncommitted response. -/
def freshResp : Resp := { committed := false, status := 200, body := none }

/-- Modelled from the spec: c.JSON(code, v) commits the response with the
given status and JSON body. -/
def respJSON (code : Nat) (v : JsonVal) (_r : Resp) : Resp :=
  { committed := true, status := code, body := some v }

/-- Modelled from the spec: c.NoContent(code) commits the response with the
given status and no body. -/
def respNoContent (code : Nat) (_r : Resp) : Resp :=
  { committed := true, status := code, body := none }

/-- Which handler the router bound into the context: the default not-found
handler, the method-not-allowed handler, or the user handler registered
under (method, template).  The context stores this tag; the Mux resolves it
to a function, which keeps the context a plain first-order value. -/
inductive HandlerRef where
  | notFound
  | methodNotAllowed
  | user (method : String) (tmpl : String)
deriving DecidableEq

/-- Modelled from the spec: the request context record (context.go is
absent from the source tree; field meaning follows the spec data model and
the reset assertions in the context tests).  The trace field models the
external observation buffer the tests use to witness execution order; it is
not part of the Go context and is preserved by reset. -/
structure Ctx where
  store : List (String × String)
  path : String
  pnames : List String
  pvalues : List String
  handlerRef : HandlerRef
  resp : Resp
  trace : List String
deriving DecidableEq

/-- A context with nothing set, used as the pooled starting state. -/
def ctx0 : Ctx :=
  { store := [], path := "", pnames := [], pvalues := []
    handlerRef := .notFound, resp := freshResp, trace := [] }

/-- HandlerFunc from middleware.go, state-passing style: a handler reads
and updates the context and returns an optional error. -/
def HandlerFunc := Ctx → Ctx × Option GoErr

/-- MiddlewareFunc from the source: func(c Context, next HandlerFunc)
error, state-passing style. -/
def Mw := Ctx → HandlerFunc → Ctx × Option GoErr

/-- compose from the source: compose(h, m) returns func(c) m(c, h). -/
def compose (h : HandlerFunc) (m : Mw) : HandlerFunc :=
  fun c => m c h

/-- The middleware chaining loop from ServeHTTP and Add:
for i from len(mws)-1 down to 0, h becomes compose(h, mws[i]); as a fold
this composes from the last middleware inward so the first is outermost. -/
def applyMiddleware (mws : List Mw) (h : HandlerFunc) : HandlerFunc :=
  mws.foldr (fun m acc => compose acc m) h

/-- NotFoundHandler from middleware.go: returns ErrNotFound. -/
def notFoundHandler : HandlerFunc := fun c => (c, some errNotFound)

/-- MethodNotAllowedHandler from middleware.go: returns
ErrMethodNotAllowed. -/
def methodNotAllowedHandler : HandlerFunc :=
  fun c => (c, some errMethodNotAllowed)

/-- defaultHTTPErrorHandler from middleware.go, ported branch by branch:
code starts at 500; a structured HTTPError overrides code and message;
otherwise Debug exposes err.Error() and non-Debug uses the status text;
a string message is wrapped into an object under the message key; nothing
is written once the response is committed; HEAD requests get status only. -/
def defaultHTTPErrorHandler (debug : Bool) (err : GoErr) (method : String)
    (r : Resp) : Resp :=
  let code : Nat := match err with
    | .http e => e.code
    | .basic _ => 500
  let msg : JsonVal := match err with
    | .http e => e.message
    | .basic t => if debug then .str t else .str (statusText 500)
  let msg : JsonVal := match msg with
    | .str s => .obj [("message", s)]
    | m => m
  if ¬ r.committed then
    if method = "HEAD" then respNoContent code r else respJSON code msg r
  else r

/-- Split a character list on the slash separator, keeping empty pieces,
as Go path handling does segment-wise. -/
def splitSlash : List Char → List (List Char)
  | [] => [[]]
  | c :: rest =>
      if c = '/' then [] :: splitSlash rest
      else
        match splitSlash rest with
        | [] => [[c]]
        | p :: ps => (c :: p) :: ps

/-- Join segments with slashes, the inverse rendering of splitSlash. -/
def joinSlash : List (List Char) → List Char
  | [] => []
  | [x] => x
  | x :: y :: rest => x ++ '/' :: joinSlash (y :: rest)

/-- Modelled from the spec: segment-wise template matching for the router
lookup (router.go is absent from the source tree).  A static segment must
match literally, a parameter segment (leading colon) captures exactly one
path segment as raw bytes, and a wildcard segment consumes the whole
remainder of the path including embedded slashes.  Returns the ordered
parameter bindings on success. -/
def segMatch : List (List Char) → List (List Char) →
    Option (List (String × String))
  | [], [] => some []
  | [], _ :: _ => none
  | t :: ts, ps =>
      if t = ['*'] then
        some [("*", String.mk (joinSlash ps))]
      else
        match ps with
        | [] => none
        | p :: ps' =>
            if t.head? = some ':' then
              (segMatch ts ps').map
                (fun bs => (String.mk (t.drop 1), String.mk p) :: bs)
            else if t = p then segMatch ts ps'
            else none

/-- A registered route record from middleware.go (the name field is the
reflected Go function name, opaque here and kept empty). -/
structure RouteRec where
  method : String
  path : String
  name : String
deriving DecidableEq

/-- One entry of the per-method routing structure: a (method, template)
key with its registered handler. -/
structure TreeEntry where
  method : String
  tmpl : String
  handler : HandlerFunc

/-- The Mux state from middleware.go restricted to the fields the
dispatcher reads: pre-router middleware, router middleware, the route
registry map (keyed by method and path concatenated, as in the source) and
the routing table.  The routing table is modelled from the spec as a keyed
list in registration order, with re-registration overwriting in place. -/
structure MuxM where
  debug : Bool
  premiddleware : List Mw
  middleware : List Mw
  registry : List (String × RouteRec)
  tree : List TreeEntry

/-- A mux fresh out of NewServeMux: no middleware, no routes. -/
def emptyMux : MuxM :=
  { debug := false, premiddleware := [], middleware := []
    registry := [], tree := [] }

/-- Insert or overwrite in the registry map keyed by method plus path,
the Go map assignment in Add. -/
def upsertReg (l : List (String × RouteRec)) (k : String) (r : RouteRec) :
    List (String × RouteRec) :=
  match l with
  | [] => [(k, r)]
  | (k', r') :: rest =>
      if k' = k then (k, r) :: rest else (k', r') :: upsertReg rest k r

/-- Modelled from the spec: router.add overwrites the handler when the
same (method, template) is registered again, last write wins. -/
def upsertTree (l : List TreeEntry) (m p : String) (h : HandlerFunc) :
    List TreeEntry :=
  match l with
  | [] => [⟨m, p, h⟩]
  | e :: rest =>
      if e.method = m ∧ e.tmpl = p then ⟨m, p, h⟩ :: rest
      else e :: upsertTree rest m p h

/-- Mux.Add from middleware.go: the registered handler is a closure that
chains the route-level middleware around the user handler from the last
one inward, and the registry map gains an entry keyed method plus path. -/
def addRoute (mux : MuxM) (method p : String) (h : HandlerFunc)
    (mws : List Mw) : MuxM × RouteRec :=
  let wrapped : HandlerFunc := fun c => (applyMiddleware mws h) c
  let r : RouteRec := { method := method, path := p, name := "" }
  ({ mux with tree := upsertTree mux.tree method p wrapped
              registry := upsertReg mux.registry (method ++ p) r }, r)

/-- Mux.Routes from middleware.go: the values of the registry map. -/
def muxRoutes (mux : MuxM) : List RouteRec := mux.registry.map (·.2)

/-- Does this template match the given path segments under segMatch. -/
def tmplMatches (tmpl : String) (segs : List (List Char)) : Bool :=
  (segMatch (splitSlash tmpl.data) segs).isSome

/-- First tree entry registered under this method whose template matches
the path segments, with its bindings. -/
def firstMatch (tree : List TreeEntry) (method : String)
    (segs : List (List Char)) : Option (String × List (String × String)) :=
  match tree with
  | [] => none
  | e :: rest =>
      if e.method = method then
        match segMatch (splitSlash e.tmpl.data) segs with
        | some bs => some (e.tmpl, bs)
        | none => firstMatch rest method segs
      else firstMatch rest method segs

/-- Does any route registered under a different method match the path. -/
def otherMethodMatches (tree : List TreeEntry) (method : String)
    (segs : List (List Char)) : Bool :=
  tree.any (fun e => e.method ≠ method ∧ tmplMatches e.tmpl segs)

/-- Modelled from the spec: router.find (router.go is absent from the
source tree).  On a match it binds the template, the parameter names and
raw values and the user handler into the context; on a miss it binds the
method-not-allowed handler when the path exists under another method, and
otherwise leaves the not-found handler in place.  Routes are tried in
registration order; the claims proved below use route sets in which at
most one template matches, so the static-over-param precedence order of
the full algorithm does not affect them. -/
def findRoute (mux : MuxM) (method path : String) (c : Ctx) : Ctx :=
  let segs := splitSlash path.data
  match firstMatch mux.tree method segs with
  | some (tmpl, bs) =>
      { c with path := tmpl, pnames := bs.map (·.1), pvalues := bs.map (·.2)
               handlerRef := .user method tmpl }
  | none =>
      if otherMethodMatches mux.tree method segs then
        { c with handlerRef := .methodNotAllowed }
      else
        { c with handlerRef := .notFound }

/-- c.Handler(): resolve the handler tag bound by the router. -/
def resolveHandler (mux : MuxM) : HandlerRef → HandlerFunc
  | .notFound => notFoundHandler
  | .methodNotAllowed => methodNotAllowedHandler
  | .user m p =>
      match mux.tree.find? (fun e => e.method = m ∧ e.tmpl = p) with
      | some e => e.handler
      | none => notFoundHandler

/-- getPath from middleware.go: the raw (still percent-encoded) URL path
when present, else the decoded path. -/
def getPath (rawPath urlPath : String) : String :=
  if rawPath = "" then urlPath else rawPath

/-- Modelled from the spec: context.reset as called at the top of
ServeHTTP (context.go is absent from the source tree; the reset assertions
in the context tests fix its behavior): the store, parameters and matched
template are cleared, the handler returns to the default not-found handler
and the response is fresh and uncommitted.  The trace observation buffer
is external to the Go context and is preserved. -/
def resetCtx (c : Ctx) : Ctx :=
  { store := [], path := "", pnames := [], pvalues := []
    handlerRef := .notFound, resp := freshResp, trace := c.trace }

/-- The route-lookup-and-dispatch core of Mux.ServeHTTP: run the router on
the request path, then the found handler wrapped in the router middleware
chained from the last one inward. -/
def runCore (mux : MuxM) (method reqPath : String) : HandlerFunc :=
  fun c0 =>
    let c1 := findRoute mux method reqPath c0
    (applyMiddleware mux.middleware (resolveHandler mux c1.handlerRef)) c1

/-- The branch structure of Mux.ServeHTTP: with no pre-middleware the
router runs immediately; otherwise the whole lookup-and-dispatch sequence
is wrapped inside the pre-middleware chain, so pre-middleware runs on a
context the router has not touched yet. -/
def dispatch (mux : MuxM) (method reqPath : String) (c : Ctx) :
    Ctx × Option GoErr :=
  if mux.premiddleware.isEmpty then runCore mux method reqPath c
  else (applyMiddleware mux.premiddleware (runCore mux method reqPath)) c

/-- The tail of Mux.ServeHTTP: a returned error goes to the configured
error handler (here the default one), a nil error leaves the response as
the chain wrote it. -/
def finalize (mux : MuxM) (method : String) (res : Ctx × Option GoErr) :
    Ctx :=
  match res.2 with
  | some e =>
      { res.1 with
        resp := defaultHTTPErrorHandler mux.debug e method res.1.resp }
  | none => res.1

/-- Mux.ServeHTTP from middleware.go, ported branch by branch: acquire and
reset a context, dispatch on the raw request path, hand any returned error
to the error handler, then release the context as-is (no reset happens on
release).  Returns the final response and the released context. -/
def serveHTTP (mux : MuxM) (method rawPath urlPath : String) (cIn : Ctx) :
    Resp × Ctx :=
  let c3 :=
    finalize mux method
      (dispatch mux method (getPath rawPath urlPath) (resetCtx cIn))
  (c3.resp, c3)

/-- A middleware that appends its label to the trace and calls the rest of
the chain, the shape the repository tests use to observe execution order. -/
def logMw (s : String) : Mw :=
  fun c next => next { c with trace := c.trace ++ [s] }

/-- A handler that appends its label to the trace and succeeds with a
committed 200 response. -/
def logHandler (s : String) : HandlerFunc :=
  fun c => ({ c with trace := c.trace ++ [s], resp := respNoContent 200 c.resp },
            none)

/-- A middleware that records the path template currently bound in the
context, then calls the rest of the chain. -/
def pathProbe (s : String) : Mw :=
  fun c next => next { c with trace := c.trace ++ [s ++ ":" ++ c.path] }

/-- A mux with an arbitrary chain of path-recording pre-middleware, one
path-recording router middleware and one route at /x, used to observe when
route lookup binds the path template. -/
def preMux (ps : List String) : MuxM :=
  (addRoute { emptyMux with premiddleware := ps.map pathProbe, middleware := [pathProbe "u"] } "GET" "/x" (logHandler "h") []).1

/-- A handler that stores a request-scoped key and commits a 200. -/
def storeHandler : HandlerFunc :=
  fun c => ({ c with store := [("k", "v")], resp := respNoContent 200 c.resp }, none)

/-- A handler that stores a request-scoped key and then fails. -/
def failHandler : HandlerFunc :=
  fun c => ({ c with store := [("k", "v")], resp := c.resp }, some (.basic "boom"))

/-- A hexadecimal digit of percent-encoding, as url.PathUnescape reads. -/
def hexDigit (c : Char) : Option Nat :=
  if '0' ≤ c ∧ c ≤ '9' then some (c.toNat - '0'.toNat)
  else if 'a' ≤ c ∧ c ≤ 'f' then some (c.toNat - 'a'.toNat + 10)
  else if 'A' ≤ c ∧ c ≤ 'F' then some (c.toNat - 'A'.toNat + 10)
  else none

/-- Percent-decoding of a character list: a percent sign consumes two hex
digits, anything else passes through. -/
def unescapeL : List Char → Option (List Char)
  | [] => some []
  | '%' :: rest =>
      match rest with
      | a :: b :: tail =>
          match hexDigit a, hexDigit b with
          | some x, some y => (unescapeL tail).map (fun l => Char.ofNat (16 * x + y) :: l)
          | _, _ => none
      | _ => none
  | c :: rest => (unescapeL rest).map (fun l => c :: l)

/-- Embedding of url.PathUnescape as the static-file handler uses it: the
decoding step applied to a captured parameter or wildcard value after
matching has completed. -/
def pathUnescape (s : String) : Option String := (unescapeL s.data).map String.mk

/-- The fixed method table from middleware.go, in declaration order. -/
def methodsList : List String :=
  ["CONNECT", "DELETE", "GET", "HEAD", "OPTIONS", "PATCH", "POST", "PROPFIND", "PUT", "TRACE"]

/-- Mux.Any from middleware.go: one Add per entry of the method table, in
order, collecting the returned route records. -/
def muxAny (mux : MuxM) (p : String) (h : HandlerFunc) (mws : List Mw) :
    MuxM × List RouteRec :=
  methodsList.foldl (fun acc m =>
    let res := addRoute acc.1 m p h mws
    (res.1, acc.2 ++ [res.2])) (mux, [])

/-- Is the character-level path rooted, that is, does it start with a
slash. -/
def isRooted (l : List Char) : Bool := l.head? = some '/'

/-- One element step of the documented Go path.Clean algorithm: empty and
dot elements are dropped, a dotdot element removes the preceding element
when one is there to remove, is dropped at the root of a rooted path, and
is kept otherwise; any other element is appended. -/
def cleanStep (rooted : Bool) (stack : List (List Char)) (e : List Char) :
    List (List Char) :=
  if e = [] ∨ e = ['.'] then stack
  else if e = ['.', '.'] then
    if stack ≠ [] ∧ stack.getLast? ≠ some ['.', '.'] then stack.dropLast
    else if rooted then stack
    else stack ++ [e]
  else stack ++ [e]

/-- The cleaned element list of a path: the Go path.Clean element
processing applied left to right starting from an empty result. -/
def cleanParts (rooted : Bool) (parts : List (List Char)) : List (List Char) :=
  parts.foldl (cleanStep rooted) []

/-- Rendering of cleaned elements back to a path: an empty result is the
root slash for rooted paths and a dot otherwise, as in Go path.Clean. -/
def renderClean (rooted : Bool) (parts : List (List Char)) : List Char :=
  if parts = [] then (if rooted then ['/'] else ['.'])
  else (if rooted then '/' :: joinSlash parts else joinSlash parts)

/-- Embedding of Go path.Clean by its documented elimination rules,
operating on slash-split elements. -/
def goClean (s : String) : String :=
  String.mk (renderClean (isRooted s.data) (cleanParts (isRooted s.data) (splitSlash s.data)))

/-- Embedding of Go filepath.Join for two nonempty elements on a
slash-separated system: Clean of the two joined with a slash. -/
def goJoin (a b : String) : String := goClean (a ++ "/" ++ b)

/-- The root defaulting in Mux.Static from middleware.go: an empty root
becomes the current directory dot. -/
def staticRoot (root : String) : String := if root = "" then "." else root

/-- The file name the static handler from middleware.go serves for a
captured wildcard value p: filepath.Join(root, path.Clean(slash + p)). -/
def staticFileName (root p : String) : String := goJoin root (goClean ("/" ++ p))

/-- A path element that the cleaned form of a path may contain: nonempty,
not the dot element, and on rooted paths never the dotdot element. -/
def goodSeg (ro : Bool) (e : List Char) : Prop :=
  e ≠ [] ∧ e ≠ ['.'] ∧ (ro = true → e ≠ ['.', '.'])

-- Sanity of the path.Clean embedding against the Go test vectors.
example : goClean "abc//def//ghi" = "abc/def/ghi" := by decide
example : goClean "abc/def/../../.." = ".." := by decide
example : goClean "/abc/def/../../.." = "/" := by decide
example : goClean "abc/./def" = "abc/def" := by decide
example : goClean "/../abc" = "/abc" := by decide
example : goClean "../../abc" = "../../abc" := by decide
example : goClean "" = "." := by decide
example : goClean "abc/" = "abc" := by decide
example : staticFileName "testdata" "../../etc/passwd" = "testdata/etc/passwd" := by decide
example : staticFileName "/var/www" "a/../../b" = "/var/www/b" := by decide

theorem applyMiddleware_cons (m : Mw) (ms : List Mw) (h : HandlerFunc) :
    applyMiddleware (m :: ms) h = fun c => m c (applyMiddleware ms h) := rfl

/-- Folding a list of logging middlewares around a handler runs the labels
in list order before the handler: the first middleware is outermost. -/
theorem logChain (ls : List String) (h : HandlerFunc) (c : Ctx) :
    applyMiddleware (ls.map logMw) h c = h { c with trace := c.trace ++ ls } := by
  induction ls generalizing c with
  | nil => simp [applyMiddleware]
  | cons s rest ih =>
      simp only [List.map_cons, applyMiddleware_cons, logMw]
      rw [ih]
      simp

/-- Folding a list of path probes around a handler records the bound path
once per probe, in list order, without changing it. -/
theorem probeChain (ls : List String) (h : HandlerFunc) (c : Ctx) :
    applyMiddleware (ls.map pathProbe) h c =
      h { c with trace := c.trace ++ ls.map (fun s => s ++ ":" ++ c.path) } := by
  induction ls generalizing c with
  | nil => simp [applyMiddleware]
  | cons s rest ih =>
      simp only [List.map_cons, applyMiddleware_cons, pathProbe]
      rw [ih]
      simp

/-- Error handling in finalize only rewrites the response: the trace (and
hence the observed execution order) is unchanged. -/
theorem finalize_trace (mux : MuxM) (method : String)
    (res : Ctx × Option GoErr) : (finalize mux method res).trace = res.1.trace := by
  rcases res with ⟨c, _ | e⟩ <;> rfl

/-- The two branches of ServeHTTP compute one and the same fold: the
pre-middleware chain wrapped around the lookup-and-dispatch core (for an
empty pre-middleware list the fold is the core itself). -/
theorem dispatch_eq_fold (mux : MuxM) (method reqPath : String) (c : Ctx) :
    dispatch mux method reqPath c =
      (applyMiddleware mux.premiddleware (runCore mux method reqPath)) c := by
  rcases h : mux.premiddleware with _ | ⟨m, ms⟩ <;>
    simp [dispatch, h, applyMiddleware]

/-- Matching a segment list against itself always succeeds: every template
matches the request path spelled exactly like the template. -/
theorem segMatch_self (segs : List (List Char)) : (segMatch segs segs).isSome := by
  induction segs with
  | nil => simp [segMatch]
  | cons t ts ih =>
      by_cases hw : t = ['*']
      · simp [segMatch, hw]
      · by_cases hp : t.head? = some ':'
        · simp [segMatch, hw, hp]
          exact ih
        · simp [segMatch, hw, hp]
          exact ih

theorem splitSlash_ne_nil (l : List Char) : splitSlash l ≠ [] := by
  cases l with
  | nil => simp [splitSlash]
  | cons c rest =>
      by_cases h : c = '/'
      · simp [splitSlash, h]
      · rcases h2 : splitSlash rest with _ | ⟨p, ps⟩ <;> simp [splitSlash, h, h2]

/-- Splitting at an explicit separator splits around it. -/
theorem splitSlash_append (a b : List Char) :
    splitSlash (a ++ '/' :: b) = splitSlash a ++ splitSlash b := by
  induction a with
  | nil => simp [splitSlash]
  | cons c a ih =>
      by_cases h : c = '/'
      · simp [splitSlash, h, ih]
      · rcases hsa : splitSlash a with _ | ⟨p, ps⟩
        · exact absurd hsa (splitSlash_ne_nil a)
        · simp [splitSlash, h, ih, hsa]

/-- Pieces produced by splitting on slashes contain no slash. -/
theorem not_slash_mem_splitSlash (l : List Char) :
    ∀ x ∈ splitSlash l, '/' ∉ x := by
  induction l with
  | nil =>
      intro x hx
      simp [splitSlash] at hx
      simp [hx]
  | cons c rest ih =>
      intro x hx
      by_cases h : c = '/'
      · simp [splitSlash, h] at hx
        rcases hx with hx | hx
        · simp [hx]
        · exact ih x hx
      · rcases hsr : splitSlash rest with _ | ⟨p, ps⟩
        · exact absurd hsr (splitSlash_ne_nil rest)
        · simp [splitSlash, h, hsr] at hx
          rcases hx with hx | hx
          · subst hx
            intro hmem
            rcases List.mem_cons.mp hmem with h1 | h1
            · exact h h1.symm
            · exact ih p (by simp [hsr]) h1
          · exact ih x (by simp [hsr, hx])

/-- A slash-free piece splits to itself. -/
theorem splitSlash_of_no_slash (x : List Char) (hx : '/' ∉ x) :
    splitSlash x = [x] := by
  induction x with
  | nil => simp [splitSlash]
  | cons c rest ih =>
      have hc : c ≠ '/' := fun h => hx (by simp [h])
      have hrest : '/' ∉ rest := fun h => hx (by simp [h])
      simp [splitSlash, hc, ih hrest]

/-- Splitting inverts joining for nonempty slash-free element lists. -/
theorem splitSlash_joinSlash (parts : List (List Char)) (hne : parts ≠ [])
    (hs : ∀ x ∈ parts, '/' ∉ x) :
    splitSlash (joinSlash parts) = parts := by
  induction parts with
  | nil => exact absurd rfl hne
  | cons x rest ih =>
      cases rest with
      | nil =>
          simp [joinSlash]
          exact splitSlash_of_no_slash x (hs x (by simp))
      | cons y rs =>
          have h1 : splitSlash (joinSlash (y :: rs)) = y :: rs :=
            ih (by simp) (fun z hz => hs z (by simp [List.mem_cons] at hz ⊢; tauto))
          simp [joinSlash, splitSlash_append, h1,
            splitSlash_of_no_slash x (hs x (by simp))]

/-- An ordinary element is simply appended by the clean step. -/
theorem cleanStep_normal (ro : Bool) (s : List (List Char)) (e : List Char)
    (h1 : e ≠ []) (h2 : e ≠ ['.']) (h3 : e ≠ ['.', '.']) :
    cleanStep ro s e = s ++ [e] := by
  simp [cleanStep, h1, h2, h3]

/-- A run of ordinary elements is appended wholesale by the clean fold. -/
theorem foldl_cleanStep_normal (ro : Bool) (ys : List (List Char))
    (h : ∀ e ∈ ys, e ≠ [] ∧ e ≠ ['.'] ∧ e ≠ ['.', '.']) :
    ∀ s, ys.foldl (cleanStep ro) s = s ++ ys := by
  induction ys with
  | nil => simp
  | cons y ys ih =>
      intro s
      have hy := h y (by simp)
      rw [List.foldl_cons, cleanStep_normal ro s y hy.1 hy.2.1 hy.2.2,
        ih (fun e he => h e (by simp [he]))]
      simp

/-- Whatever the clean step keeps was already on the stack or is the
element just processed. -/
theorem mem_cleanStep (ro : Bool) (s : List (List Char)) (x e : List Char)
    (he : e ∈ cleanStep ro s x) : e ∈ s ∨ e = x := by
  unfold cleanStep at he
  split_ifs at he
  · exact Or.inl he
  · exact Or.inl (List.mem_of_mem_dropLast he)
  · exact Or.inl he
  · rcases List.mem_append.mp he with h | h
    · exact Or.inl h
    · exact Or.inr (by simpa using h)
  · rcases List.mem_append.mp he with h | h
    · exact Or.inl h
    · exact Or.inr (by simpa using h)

/-- Whatever the clean fold keeps comes from the start stack or the
processed elements. -/
theorem mem_foldl_cleanStep (ro : Bool) (xs : List (List Char)) :
    ∀ (s : List (List Char)) (e : List Char),
      e ∈ xs.foldl (cleanStep ro) s → e ∈ s ∨ e ∈ xs := by
  induction xs with
  | nil =>
      intro s e he
      simp at he
      exact Or.inl he
  | cons x xs ih =>
      intro s e he
      rw [List.foldl_cons] at he
      rcases ih (cleanStep ro s x) e he with h | h
      · rcases mem_cleanStep ro s x e h with h2 | h2
        · exact Or.inl h2
        · exact Or.inr (by simp [h2])
      · exact Or.inr (by simp [h])

/-- Every cleaned element comes from the input elements. -/
theorem mem_cleanParts (ro : Bool) (xs : List (List Char)) (e : List Char)
    (he : e ∈ cleanParts ro xs) : e ∈ xs := by
  rcases mem_foldl_cleanStep ro xs [] e he with h | h
  · simp at h
  · exact h

/-- The clean step preserves goodness of the stack elements. -/
theorem cleanStep_good (ro : Bool) (s : List (List Char)) (x : List Char)
    (hs : ∀ f ∈ s, goodSeg ro f) : ∀ e ∈ cleanStep ro s x, goodSeg ro e := by
  unfold cleanStep
  split_ifs with h1 h2 h3 h4 <;> intro e he
  · exact hs e he
  · exact hs e (List.mem_of_mem_dropLast he)
  · exact hs e he
  · rcases List.mem_append.mp he with h | h
    · exact hs e h
    · refine ⟨?_, ?_, ?_⟩
      · simp at h
        simp [h, h2]
      · simp at h
        simp [h, h2]
      · intro hro
        exact absurd hro h4
  · rcases List.mem_append.mp he with h | h
    · exact hs e h
    · simp at h
      subst h
      push_neg at h1
      exact ⟨h1.1, h1.2, fun _ => h2⟩

/-- Every cleaned element is good: nonempty, not a dot, and on rooted
paths never a dotdot — cleaning an absolute path can never refer upward. -/
theorem cleanParts_good (ro : Bool) (xs : List (List Char)) :
    ∀ e ∈ cleanParts ro xs, goodSeg ro e := by
  have aux : ∀ (ys : List (List Char)) (s : List (List Char)),
      (∀ f ∈ s, goodSeg ro f) → ∀ e ∈ ys.foldl (cleanStep ro) s, goodSeg ro e := by
    intro ys
    induction ys with
    | nil =>
        intro s hs e he
        simp at he
        exact hs e he
    | cons y ys ih =>
        intro s hs e he
        rw [List.foldl_cons] at he
        exact ih (cleanStep ro s y) (cleanStep_good ro s y hs) e he
  exact aux xs [] (by simp)

/-- C1: for an ordered global middleware chain and an ordered route-level
middleware chain around a terminal handler, the dispatcher builds the
composed handler by folding compose from the last middleware inward, so
the executed order is first global middleware, then the rest of the chain
in list order, then the route-level middleware registered via Add
(composed closest to the handler, inside the global chain), then the
handler: for arbitrary label lists g and r the observed trace is exactly
g, then r, then the handler label. -/
theorem chain_executes_globals_then_route_mw_then_handler
    (g r : List String) :
    ((serveHTTP (addRoute { emptyMux with middleware := g.map logMw } "GET" "/x"
        (logHandler "h") (r.map logMw)).1 "GET" "/x" "/x" ctx0).2).trace
      = g ++ r ++ ["h"] := by
  rw [show ((serveHTTP (addRoute { emptyMux with middleware := g.map logMw } "GET" "/x"
        (logHandler "h") (r.map logMw)).1 "GET" "/x" "/x" ctx0).2)
      = finalize (addRoute { emptyMux with middleware := g.map logMw } "GET" "/x"
          (logHandler "h") (r.map logMw)).1 "GET"
          (applyMiddleware (g.map logMw)
            (fun c => applyMiddleware (r.map logMw) (logHandler "h") c)
            { ctx0 with path := "/x", handlerRef := .user "GET" "/x" }) from rfl]
  rw [finalize_trace, logChain]
  simp only []
  rw [logChain]
  simp [logHandler, ctx0]

/-- C4: route lookup is deferred until the pre-middleware chain calls into
the core, so every pre-middleware observes a context with no path template
bound (each records the empty path), while the router middleware runs
after lookup and observes the matched template; when the pre-middleware
list is empty (the ps = [] instance) lookup happens immediately and the
first thing recorded is the bound template. -/
theorem pre_middleware_observes_unrouted_context (ps : List String) :
    ((serveHTTP (preMux ps) "GET" "/x" "/x" ctx0).2).trace
      = ps.map (fun s => s ++ ":") ++ ["u:/x", "h"] := by
  have hrun : ∀ c : Ctx,
      runCore (preMux ps) "GET" "/x" c
      = (logHandler "h") { c with path := "/x"
                                  pnames := ([] : List String)
                                  pvalues := ([] : List String)
                                  handlerRef := .user "GET" "/x"
                                  trace := c.trace ++ ["u:/x"] } := by
    intro c
    rfl
  rw [show ((serveHTTP (preMux ps) "GET" "/x" "/x" ctx0).2)
      = finalize (preMux ps) "GET"
          (dispatch (preMux ps) "GET" "/x" (resetCtx ctx0)) from rfl]
  rw [finalize_trace, dispatch_eq_fold]
  rw [show (preMux ps).premiddleware = ps.map pathProbe from rfl]
  rw [probeChain, hrun]
  simp [logHandler, resetCtx, ctx0, String.append_empty]

/-- C2 counterexample: for the structured error HTTPError with Code 400
and the non-string Message consisting of the single field code = 12 (the
value the HTTPError test uses), the default handler sends that object
itself as the body, which has no message field at all — refuting the claim
that the body is always a JSON object whose message field is the Message. -/
theorem nonstring_message_body_has_no_message_field :
    defaultHTTPErrorHandler false (.http ⟨400, .obj [("code", "12")], none⟩)
        "GET" freshResp
      = { committed := true, status := 400, body := some (.obj [("code", "12")]) }
    ∧ "message" ∉ [("code", "12")].map Prod.fst :=
  ⟨rfl, by decide⟩

/-- C2 amended: for every error handed to the default handler, on an
uncommitted response a structured HTTPError yields its Code as status,
with body equal to an object wrapping the Message under the message key
when the Message is a string and to the Message value itself otherwise
(and no body at all on HEAD requests); any other error yields status 500;
and a committed response is left untouched. -/
theorem default_error_handler_shape (d : Bool) (e : HTTPErrorS)
    (method : String) (r : Resp) :
    (r.committed = true → defaultHTTPErrorHandler d (.http e) method r = r)
    ∧ (r.committed = false → method = "HEAD" →
        defaultHTTPErrorHandler d (.http e) method r
          = { committed := true, status := e.code, body := none })
    ∧ (r.committed = false → method ≠ "HEAD" → ∀ s, e.message = .str s →
        defaultHTTPErrorHandler d (.http e) method r
          = { committed := true, status := e.code
              body := some (.obj [("message", s)]) })
    ∧ (r.committed = false → method ≠ "HEAD" → ∀ fs, e.message = .obj fs →
        defaultHTTPErrorHandler d (.http e) method r
          = { committed := true, status := e.code, body := some (.obj fs) })
    ∧ (r.committed = false → ∀ t,
        (defaultHTTPErrorHandler false (.basic t) method r).status = 500) := by
  refine ⟨?_, ?_, ?_, ?_, ?_⟩
  · intro hc
    simp [defaultHTTPErrorHandler, hc]
  · intro hc hm
    simp [defaultHTTPErrorHandler, hc, hm, respNoContent]
  · intro hc hm s hs
    simp [defaultHTTPErrorHandler, hc, hm, hs, respJSON]
  · intro hc hm fs hs
    simp [defaultHTTPErrorHandler, hc, hm, hs, respJSON]
  · intro hc t
    by_cases hm : method = "HEAD" <;>
      simp [defaultHTTPErrorHandler, hc, hm, respJSON, respNoContent]

/-- The amended error-handler shape at a concrete input: a 404 HTTPError
with a string message on an uncommitted POST response produces status 404
and the wrapped message body. -/
theorem default_error_handler_shape_witness :
    defaultHTTPErrorHandler false (.http ⟨404, .str "Not Found", none⟩)
        "POST" freshResp
      = { committed := true, status := 404
          body := some (.obj [("message", "Not Found")]) } :=
  (default_error_handler_shape false ⟨404, .str "Not Found", none⟩ "POST"
      freshResp).2.2.1 rfl (by decide) "Not Found" rfl

/-- C8: with Debug off, any two non-HTTPError errors produce the very same
response from the default handler — on an uncommitted non-HEAD response it
is exactly status 500 with the generic body wrapping the text Internal
Server Error — so nothing of the error value reaches the response; the
error text appears in the body only when Debug is on. -/
theorem nonstructured_errors_leak_nothing_without_debug
    (t1 t2 : String) (method : String) (r : Resp) :
    defaultHTTPErrorHandler false (.basic t1) method r
      = defaultHTTPErrorHandler false (.basic t2) method r
    ∧ (r.committed = false → method ≠ "HEAD" →
        defaultHTTPErrorHandler false (.basic t1) method r
          = { committed := true, status := 500
              body := some (.obj [("message", "Internal Server Error")]) })
    ∧ (r.committed = false → method ≠ "HEAD" →
        defaultHTTPErrorHandler true (.basic t1) method r
          = { committed := true, status := 500
              body := some (.obj [("message", t1)]) }) := by
  refine ⟨?_, ?_, ?_⟩
  · simp [defaultHTTPErrorHandler, statusText]
  · intro hc hm
    simp [defaultHTTPErrorHandler, hc, hm, respJSON, statusText]
  · intro hc hm
    simp [defaultHTTPErrorHandler, hc, hm, respJSON]

/-- The no-leak property at a concrete input: a plain boom error on an
uncommitted GET response gives the generic 500 body. -/
theorem nonstructured_errors_leak_nothing_without_debug_witness :
    defaultHTTPErrorHandler false (.basic "boom") "GET" freshResp
      = { committed := true, status := 500
          body := some (.obj [("message", "Internal Server Error")]) } :=
  (nonstructured_errors_leak_nothing_without_debug "boom" "other" "GET"
      freshResp).2.1 rfl (by decide)

/-- C3 counterexample: after serving a route whose handler set a store key,
the context released to the pool still carries that key, the matched path
template and the matched handler tag — it has not been reset at release
(the reset happens at the next acquisition instead). -/
theorem released_context_is_not_reset :
    ((serveHTTP (addRoute emptyMux "GET" "/" storeHandler []).1 "GET" "/" "/" ctx0).2).store
        = [("k", "v")]
    ∧ ((serveHTTP (addRoute emptyMux "GET" "/" storeHandler []).1 "GET" "/" "/" ctx0).2).path = "/"
    ∧ ¬ (((serveHTTP (addRoute emptyMux "GET" "/" storeHandler []).1 "GET" "/" "/" ctx0).2).store = []
         ∧ ((serveHTTP (addRoute emptyMux "GET" "/" storeHandler []).1 "GET" "/" "/" ctx0).2).path = ""
         ∧ ((serveHTTP (addRoute emptyMux "GET" "/" storeHandler []).1 "GET" "/" "/" ctx0).2).handlerRef = .notFound) := by
  refine ⟨rfl, rfl, ?_⟩
  decide

/-- C3 amended: the context is released unconditionally — the dispatcher
always hands the post-chain context back to the pool, also when the chain
returned an error — but the reset happens at acquisition (immediately
after the context is taken from the pool, before dispatch), not at
release: reset clears the store, the path template, the parameters, the
matched handler and the committed flag, serveHTTP is exactly
finalize-after-dispatch on the reset context, and an erroring handler
still results in a released context that carries its request data next to
the 500 response. -/
theorem context_reset_at_acquire_release_unconditional :
    (∀ c : Ctx, (resetCtx c).store = [] ∧ (resetCtx c).path = ""
      ∧ (resetCtx c).pnames = [] ∧ (resetCtx c).pvalues = []
      ∧ (resetCtx c).handlerRef = .notFound ∧ (resetCtx c).resp.committed = false)
    ∧ (∀ (mux : MuxM) (method raw url : String) (cIn : Ctx),
        serveHTTP mux method raw url cIn
          = ((finalize mux method (dispatch mux method (getPath raw url) (resetCtx cIn))).resp,
             finalize mux method (dispatch mux method (getPath raw url) (resetCtx cIn))))
    ∧ ((serveHTTP (addRoute emptyMux "GET" "/" failHandler []).1 "GET" "/" "/" ctx0).2).store = [("k", "v")]
    ∧ ((serveHTTP (addRoute emptyMux "GET" "/" failHandler []).1 "GET" "/" "/" ctx0).1).status = 500 :=
  ⟨fun _ => ⟨rfl, rfl, rfl, rfl, rfl, rfl⟩, fun _ _ _ _ _ => rfl, rfl, rfl⟩

/-- C5: registering the same (method, path) twice leaves exactly one
enumeration entry — the registry holds the single record for that pair —
the routing table holds a single (method, template) key, lookup on that
path binds that key, and resolving it yields the closure built from the
second handler. -/
theorem duplicate_registration_keeps_one_entry_second_handler
    (m p : String) (h1 h2 : HandlerFunc) :
    muxRoutes (addRoute (addRoute emptyMux m p h1 []).1 m p h2 []).1
        = [{ method := m, path := p, name := "" }]
    ∧ ((addRoute (addRoute emptyMux m p h1 []).1 m p h2 []).1.tree.map
        (fun e => (e.method, e.tmpl))) = [(m, p)]
    ∧ (findRoute (addRoute (addRoute emptyMux m p h1 []).1 m p h2 []).1 m p
        (resetCtx ctx0)).handlerRef = .user m p
    ∧ resolveHandler (addRoute (addRoute emptyMux m p h1 []).1 m p h2 []).1
        (.user m p) = fun c => applyMiddleware [] h2 c := by
  refine ⟨?_, ?_, ?_, ?_⟩
  · simp [muxRoutes, addRoute, upsertReg, emptyMux]
  · simp [addRoute, upsertTree, emptyMux]
  · obtain ⟨bs, hbs⟩ := Option.isSome_iff_exists.mp (segMatch_self (splitSlash p.data))
    simp [findRoute, firstMatch, addRoute, upsertTree, emptyMux, hbs]
  · simp [resolveHandler, addRoute, upsertTree, emptyMux, List.find?]

/-- C6: on a mux without middleware, a request whose path matches no route
of any method is answered 404 with the Not Found body, and one whose path
is registered only under other methods is answered 405 — in both cases
the response is literally the default error handler applied to ErrNotFound
or ErrMethodNotAllowed, the one error-surfacing path user errors take. -/
theorem unmatched_paths_get_404_wrong_method_405
    (mux : MuxM) (method raw url : String) (cIn : Ctx)
    (hpre : mux.premiddleware = []) (hmid : mux.middleware = [])
    (hm : method ≠ "HEAD") :
    (firstMatch mux.tree method (splitSlash (getPath raw url).data) = none →
      otherMethodMatches mux.tree method (splitSlash (getPath raw url).data) = false →
      (serveHTTP mux method raw url cIn).1
        = { committed := true, status := 404, body := some (.obj [("message", "Not Found")]) }
      ∧ (serveHTTP mux method raw url cIn).1
        = defaultHTTPErrorHandler false errNotFound method freshResp)
    ∧ (firstMatch mux.tree method (splitSlash (getPath raw url).data) = none →
      otherMethodMatches mux.tree method (splitSlash (getPath raw url).data) = true →
      (serveHTTP mux method raw url cIn).1
        = { committed := true, status := 405, body := some (.obj [("message", "Method Not Allowed")]) }
      ∧ (serveHTTP mux method raw url cIn).1
        = defaultHTTPErrorHandler false errMethodNotAllowed method freshResp) := by
  constructor
  · intro hfm hom
    simp [serveHTTP, dispatch, hpre, runCore, findRoute, hfm, hom, resolveHandler,
      hmid, applyMiddleware, notFoundHandler, finalize, defaultHTTPErrorHandler,
      hm, errNotFound, newHTTPError, statusText, respJSON, resetCtx, freshResp]
  · intro hfm hom
    simp [serveHTTP, dispatch, hpre, runCore, findRoute, hfm, hom, resolveHandler,
      hmid, applyMiddleware, methodNotAllowedHandler, finalize, defaultHTTPErrorHandler,
      hm, errMethodNotAllowed, newHTTPError, statusText, respJSON, resetCtx, freshResp]

/-- The 404 and 405 outcomes at concrete inputs, on a mux with one GET
route at the root: GET of an unknown path gives the Not Found response,
POST of the known path gives the Method Not Allowed response. -/
theorem unmatched_paths_get_404_wrong_method_405_witness :
    (serveHTTP (addRoute emptyMux "GET" "/" (logHandler "h") []).1 "GET" "/files" "/files" ctx0).1
      = { committed := true, status := 404, body := some (.obj [("message", "Not Found")]) }
    ∧ (serveHTTP (addRoute emptyMux "GET" "/" (logHandler "h") []).1 "POST" "/" "/" ctx0).1
      = { committed := true, status := 405, body := some (.obj [("message", "Method Not Allowed")]) } :=
  ⟨((unmatched_paths_get_404_wrong_method_405
      (addRoute emptyMux "GET" "/" (logHandler "h") []).1 "GET" "/files" "/files" ctx0
      rfl rfl (by decide)).1 (by decide) (by decide)).1,
   ((unmatched_paths_get_404_wrong_method_405
      (addRoute emptyMux "GET" "/" (logHandler "h") []).1 "POST" "/" "/" ctx0
      rfl rfl (by decide)).2 (by decide) (by decide)).1⟩

/-- C7: the dispatcher matches on the raw, still percent-encoded path —
getPath prefers the raw path whenever it is nonempty — so an encoded
slash inside a segment is never a structural separator: the template for
a single named parameter matches the whole encoded segment, the captured
value is the raw bytes, and only the later PathUnescape step turns them
into the decoded text containing a real slash. -/
theorem encoded_slash_matches_single_param_raw :
    getPath "" "/a" = "/a"
    ∧ getPath "/with%2Fslash" "/with/slash" = "/with%2Fslash"
    ∧ ((serveHTTP (addRoute emptyMux "GET" "/:id" (logHandler "h") []).1
        "GET" "/with%2Fslash" "/with/slash" ctx0).1).status = 200
    ∧ ((serveHTTP (addRoute emptyMux "GET" "/:id" (logHandler "h") []).1
        "GET" "/with%2Fslash" "/with/slash" ctx0).2).pnames = ["id"]
    ∧ ((serveHTTP (addRoute emptyMux "GET" "/:id" (logHandler "h") []).1
        "GET" "/with%2Fslash" "/with/slash" ctx0).2).pvalues = ["with%2Fslash"]
    ∧ pathUnescape "with%2Fslash" = some "with/slash" := by
  refine ⟨rfl, rfl, rfl, rfl, rfl, ?_⟩
  decide

/-- C9: Any registers the handler for exactly the ten methods CONNECT,
DELETE, GET, HEAD, OPTIONS, PATCH, POST, PROPFIND, PUT, TRACE in that
order: it returns exactly ten route records, one per method in table
order, all for the requested path, and starting from an empty mux the
routing table gains exactly those ten (method, path) keys in order. -/
theorem any_registers_ten_methods_in_order
    (mux : MuxM) (p : String) (h : HandlerFunc) (mws : List Mw) :
    ((muxAny mux p h mws).2).map RouteRec.method = methodsList
    ∧ ((muxAny mux p h mws).2).length = 10
    ∧ ((muxAny mux p h mws).2).map RouteRec.path = List.replicate 10 p
    ∧ ((muxAny emptyMux p h mws).1.tree.map (fun e => (e.method, e.tmpl)))
        = methodsList.map (fun m => (m, p)) := by
  refine ⟨?_, ?_, ?_, ?_⟩ <;>
    simp [muxAny, methodsList, addRoute, upsertTree, upsertReg, List.replicate]

/-- C10: the file name the static handler serves is the cleaned root
followed by the cleaned captured value: cleaning the captured value as an
absolute path removes every parent-directory element, so the rendered
name lies inside the (cleaned) root for every captured value, and an
empty root argument is replaced by the current-directory dot. -/
theorem static_file_name_stays_inside_root (root p : String) (hr : root ≠ "") :
    staticFileName root p
      = String.mk (renderClean (isRooted root.data)
          (cleanParts (isRooted root.data) (splitSlash root.data)
            ++ cleanParts true (splitSlash p.data)))
    ∧ ['.', '.'] ∉ cleanParts true (splitSlash p.data)
    ∧ staticRoot "" = "." := by
  have hdata : root.data ≠ [] := by
    intro h
    apply hr
    cases root with
    | mk l =>
        simp only at h
        rw [h]
  have habs : (goClean ("/" ++ p)).data
      = renderClean true (cleanParts true (splitSlash p.data)) := by
    show renderClean (isRooted (("/" ++ p).data))
        (cleanParts (isRooted (("/" ++ p).data)) (splitSlash (("/" ++ p).data))) = _
    rw [show ("/" ++ p).data = '/' :: p.data from rfl]
    rw [show isRooted ('/' :: p.data) = true from rfl]
    rw [show splitSlash ('/' :: p.data) = [] :: splitSlash p.data from by simp [splitSlash]]
    rw [show ∀ S, cleanParts true ([] :: S) = cleanParts true S from fun S => rfl]
  have hnodot : ['.', '.'] ∉ cleanParts true (splitSlash p.data) := by
    intro h
    exact (cleanParts_good true (splitSlash p.data) _ h).2.2 rfl rfl
  refine ⟨?_, hnodot, rfl⟩
  have habs2 : goClean ("/" ++ p)
      = String.mk (renderClean true (cleanParts true (splitSlash p.data))) := by
    rw [show goClean ("/" ++ p) = String.mk ((goClean ("/" ++ p)).data) from rfl, habs]
  show goClean (root ++ "/" ++ goClean ("/" ++ p)) = _
  rw [habs2]
  unfold goClean
  rw [show (root ++ "/" ++ String.mk (renderClean true (cleanParts true (splitSlash p.data)))).data
      = root.data ++ ['/'] ++ renderClean true (cleanParts true (splitSlash p.data)) from rfl]
  rw [show root.data ++ ['/'] ++ renderClean true (cleanParts true (splitSlash p.data))
      = root.data ++ '/' :: renderClean true (cleanParts true (splitSlash p.data)) from by simp]
  have hro : isRooted (root.data ++ '/' :: renderClean true (cleanParts true (splitSlash p.data)))
      = isRooted root.data := by
    rcases hx : root.data with _ | ⟨c, l⟩
    · exact absurd hx hdata
    · simp [isRooted]
  rw [hro, splitSlash_append]
  congr 1
  congr 1
  rcases hW : cleanParts true (splitSlash p.data) with _ | ⟨w, ws⟩
  · rw [show renderClean true ([] : List (List Char)) = ['/'] from rfl]
    rw [show splitSlash ['/'] = [[], []] from by simp [splitSlash]]
    rw [show ∀ ro S, cleanParts ro (S ++ [[], []]) = cleanParts ro S from
      fun ro S => by simp [cleanParts, List.foldl_append, cleanStep]]
    simp
  · have hslash : ∀ x ∈ w :: ws, '/' ∉ x := by
      intro x hx
      have hmem : x ∈ cleanParts true (splitSlash p.data) := by
        rw [hW]
        exact hx
      exact not_slash_mem_splitSlash p.data x (mem_cleanParts true (splitSlash p.data) x hmem)
    have hgood : ∀ e ∈ w :: ws, e ≠ [] ∧ e ≠ ['.'] ∧ e ≠ ['.', '.'] := by
      intro e he
      have hmem : e ∈ cleanParts true (splitSlash p.data) := by
        rw [hW]
        exact he
      have hg := cleanParts_good true (splitSlash p.data) e hmem
      exact ⟨hg.1, hg.2.1, hg.2.2 rfl⟩
    rw [show renderClean true (w :: ws) = '/' :: joinSlash (w :: ws) from rfl]
    rw [show splitSlash ('/' :: joinSlash (w :: ws)) = [] :: splitSlash (joinSlash (w :: ws)) from by simp [splitSlash]]
    rw [splitSlash_joinSlash (w :: ws) (by simp) hslash]
    show (splitSlash root.data ++ [] :: w :: ws).foldl (cleanStep (isRooted root.data)) [] = _
    rw [List.foldl_append]
    rw [show ∀ s, List.foldl (cleanStep (isRooted root.data)) s ([] :: w :: ws)
        = List.foldl (cleanStep (isRooted root.data)) s (w :: ws) from
      fun s => by simp [cleanStep]]
    rw [foldl_cleanStep_normal (isRooted root.data) (w :: ws) hgood]
    rfl

/-- The static containment at a concrete input: a traversal attempt out of
the testdata root resolves to a name still inside testdata. -/
theorem static_file_name_stays_inside_root_witness :
    (staticFileName "testdata" "../../etc/passwd"
      = String.mk (renderClean (isRooted ("testdata" : String).data)
          (cleanParts (isRooted ("testdata" : String).data)
              (splitSlash ("testdata" : String).data)
            ++ cleanParts true (splitSlash ("../../etc/passwd" : String).data)))
    ∧ ['.', '.'] ∉ cleanParts true (splitSlash ("../../etc/passwd" : String).data)
    ∧ staticRoot "" = ".")
    ∧ staticFileName "testdata" "../../etc/passwd" = "testdata/etc/passwd" :=
  ⟨static_file_name_stays_inside_root "testdata" "../../etc/passwd" (by decide),
   by decide⟩

end Route
